import Mathlib

/-!
# go-chat-udp: message codec and server relay

A shallow embedding of `internal/messages/messages.go` and of the relay part of
`cmd/server/main.go`, together with the properties of the message protocol that
were checked against it.

Go strings are byte sequences; they are embedded as lists of bytes. Go's `int`
is taken to be 64 bits wide (`strconv.IntSize = 64`). A Go run-time panic is an
explicit error value of the embedding.
-/

namespace GoChat

/-! ## Strings -/

/-- One byte of a Go string. -/
abbrev Byte := Fin 256

/-- A Go `string`: an immutable sequence of bytes. -/
abbrev GoString := List Byte

/-- The bytes of a Go string literal (its UTF-8 encoding). -/
def lit (s : String) : GoString :=
  s.toUTF8.data.toList.map (fun b => Fin.ofNat b.toNat)

/-- The separator `"\x01"` used by the codec. -/
def sep : Byte := 1

/-! ## Run-time panics -/

/-- The run-time failures the embedded code can raise. -/
inductive Panic where
  /-- Go's `index out of range [index] with length len`. -/
  | indexOutOfRange (index len : Nat)
  /-- An explicit `panic(err)` carrying the error's text. -/
  | explicit (err : GoString)
deriving DecidableEq, Repr

deriving instance DecidableEq for Except

/-- Slice indexing `a[i]`, which panics when `i` is not below `len(a)`. -/
def index (a : List GoString) (i : Nat) : Except Panic GoString :=
  match a.get? i with
  | some x => Except.ok x
  | none => Except.error (Panic.indexOutOfRange i a.length)

/-! ## `strings.Split` and `strings.Join` -/

/-- The call `strings.Count(s, sep)` for a one-byte separator. -/
def Count : GoString → Byte → Nat
  | [], _ => 0
  | c :: cs, b => (if c = b then 1 else 0) + Count cs b

/-- The call `strings.Index(s, sep)` for a one-byte separator; `none` stands for `-1`. -/
def Index : GoString → Byte → Option Nat
  | [], _ => none
  | c :: cs, b => if c = b then some 0 else (Index cs b).map (· + 1)

/-- The loop of `strings.genSplit` with `sepSave = 0`: the first argument is the
number of iterations left (`n - 1 - i`), the list returned is `a[i:]`. -/
def genSplitLoop : Nat → GoString → Byte → List GoString
  | 0, s, _ => [s]
  | k + 1, s, b =>
    match Index s b with
    | none => [s]
    | some m => s.take m :: genSplitLoop k (s.drop (m + 1)) b

/-- The call `strings.Split(s, sep)` for a one-byte separator:
`genSplit(s, sep, 0, -1)` with `n = Count(s, sep) + 1`. -/
def Split (s : GoString) (b : Byte) : List GoString :=
  genSplitLoop (Count s b) s b

/-- The call `strings.Join(elems, sep)`. -/
def Join (elems : List GoString) (s : GoString) : GoString :=
  match elems with
  | [] => []
  | [e] => e
  | e :: es => es.foldl (fun b x => b ++ s ++ x) e

/-! ## `strconv.Itoa` -/

/-- The digit character `digits[d]` for `d < 10`. -/
def digitByte (d : Nat) : Byte := Fin.ofNat (48 + d)

/-- The result of `strconv.small(i)` for `i < 100`: one digit below ten,
otherwise the two characters `smallsString[2i : 2i+2]`. -/
def small (i : Nat) : GoString :=
  if i < 10 then [digitByte i] else [digitByte (i / 10), digitByte (i % 10)]

/-- The digit loop of `strconv.formatBits` in base ten, filling the buffer from
its end (`acc` is the part already written). The first argument bounds the
number of iterations. -/
def formatBitsLoop : Nat → Nat → GoString → GoString
  | 0, u, acc => digitByte u :: acc
  | fuel + 1, u, acc =>
    if 10 ≤ u then formatBitsLoop fuel (u / 10) (digitByte (u % 10) :: acc)
    else digitByte u :: acc

/-- The call `strconv.formatBits(nil, u, 10, neg, false)` on the magnitude `u`. -/
def formatBits (u : Nat) (neg : Bool) : GoString :=
  let a := formatBitsLoop u u []
  if neg then (45 : Byte) :: a else a

/-- The call `strconv.FormatInt(i, 10)`. -/
def FormatInt (i : Int) : GoString :=
  if 0 ≤ i ∧ i < 100 then small i.toNat else formatBits i.natAbs (decide (i < 0))

/-- The call `strconv.Itoa(i)`. -/
def Itoa (i : Int) : GoString := FormatInt i

/-! ## `strconv.Atoi` -/

/-- The error kinds of `strconv.NumError`. -/
inductive NumError where
  | ErrSyntax
  | ErrRange
deriving DecidableEq, Repr

/-- The width of Go's `int`. -/
def intSize : Nat := 64

/-- The digit loop of the fast path of `strconv.Atoi`: `ch -= '0'` wraps around
in a byte, and a value above nine is a syntax error. -/
def atoiFastLoop : GoString → Int → Option Int
  | [], n => some n
  | ch :: rest, n =>
    let d := (ch.val + 256 - 48) % 256
    if 9 < d then none else atoiFastLoop rest (n * 10 + d)

/-- The digit loop of `strconv.ParseUint(s, 10, 0)`: it returns the value with
the error raised, if any. The bound `cutoff` is `maxUint64/10 + 1` and `maxVal`
is `1<<64 - 1`. A range error is raised as soon as the value overflows, before
the rest of the string is looked at. A byte that is no decimal digit is a
syntax error: a letter stands for a digit of value ten or more, and `_` is
accepted in base 0 only. -/
def parseUintLoop : GoString → Nat → Nat × Option NumError
  | [], n => (n, none)
  | c :: rest, n =>
    if 48 ≤ c.val ∧ c.val ≤ 57 then
      let d := c.val - 48
      if (2 ^ 64 - 1) / 10 + 1 ≤ n then (2 ^ 64 - 1, some NumError.ErrRange)
      else
        let n1 := n * 10 + d
        if 2 ^ 64 - 1 < n1 then (2 ^ 64 - 1, some NumError.ErrRange)
        else parseUintLoop rest n1
    else (0, some NumError.ErrSyntax)

/-- The call `strconv.ParseUint(s, 10, 0)`. -/
def ParseUint (s : GoString) : Nat × Option NumError :=
  if s = [] then (0, some NumError.ErrSyntax) else parseUintLoop s 0

/-- The call `strconv.ParseInt(s, 10, 0)`. -/
def ParseInt (s : GoString) : Int × Option NumError :=
  match s with
  | [] => (0, some NumError.ErrSyntax)
  | c :: rest =>
    let neg := decide (c = 45)
    let s1 := if c = 43 ∨ c = 45 then rest else s
    match ParseUint s1 with
    | (_, some NumError.ErrSyntax) => (0, some NumError.ErrSyntax)
    | (un, _) =>
      let cutoff : Nat := 2 ^ (intSize - 1)
      if ¬ neg ∧ cutoff ≤ un then ((cutoff : Int) - 1, some NumError.ErrRange)
      else if neg ∧ cutoff < un then (-(cutoff : Int), some NumError.ErrRange)
      else (if neg then -(un : Int) else (un : Int), none)

/-- The call `strconv.Atoi(s)`: the value and the error, `none` for `nil`. -/
def Atoi (s : GoString) : Int × Option NumError :=
  match s with
  | [] => ParseInt s
  | c :: rest =>
    if s.length < 19 then
      let s1 := if c = 45 ∨ c = 43 then rest else s
      if s1.length < 1 then (0, some NumError.ErrSyntax)
      else
        match atoiFastLoop s1 0 with
        | none => (0, some NumError.ErrSyntax)
        | some n => (if c = 45 then -n else n, none)
    else ParseInt s

/-! ## Messages (`internal/messages`) -/

/-- The Go type `MessageType`, an `int`. -/
abbrev MessageType := Int

/-- The constant `Functional = iota`. -/
def Functional : MessageType := 0

/-- The constant `Content`, the second of the `iota` block. -/
def Content : MessageType := 1

/-- The Go struct `Message`; the field `Type` is written `Type_`. -/
structure Message where
  UserID : GoString
  Author : GoString
  Content : GoString
  Type_ : MessageType
deriving DecidableEq, Repr

/-- The constructor `newMessage`. -/
def newMessage (id author content : GoString) (messageType : MessageType) : Message :=
  { UserID := id, Author := author, Content := content, Type_ := messageType }

/-- The constructor `NewFunctionalMessage`. -/
def NewFunctionalMessage (id author content : GoString) : Message :=
  newMessage id author content Functional

/-- The constructor `NewContentMessage`. -/
def NewContentMessage (id author content : GoString) : Message :=
  newMessage id author content Content

/-- The encoder `ParseMessageToString`. -/
def ParseMessageToString (message : Message) : GoString :=
  let id := message.UserID
  let author := message.Author
  let content := message.Content
  let messageType := Itoa message.Type_
  Join [id, author, messageType, content] [sep]

/-- The decoder `ParseStringToMessage`. The four slice reads are made in the
order of the source (`[0]`, `[1]`, `[3]`, `[2]`); the error of `Atoi` is
discarded. -/
def ParseStringToMessage (content : GoString) : Except Panic Message := do
  let stringArray := Split content sep
  let userID ← index stringArray 0
  let author ← index stringArray 1
  let messageContent ← index stringArray 3
  let typeField ← index stringArray 2
  let messageType := (Atoi typeField).1
  pure (newMessage userID author messageContent messageType)

/-! ## Server (`cmd/server`) -/

/-- The Go struct `net.UDPAddr`. -/
structure UDPAddr where
  IP : List Byte
  Port : Nat
  Zone : GoString
deriving DecidableEq, Repr

/-- The Go struct `Client`. -/
structure Client where
  Address : UDPAddr
  Author : GoString
deriving DecidableEq, Repr

/-- The constructor `newClient`. -/
def newClient (addr : UDPAddr) (author : GoString) : Client :=
  { Address := addr, Author := author }

/-- The Go type `map[string]*Client`, as the list of its entries. A `range` over
the map visits the entries in the order of the list: Go leaves that order
unspecified, so every order of the list is a possible one. -/
abbrev ClientMap := List (GoString × Client)

/-- The map read `m[k]` in its two-result form; `none` is `ok = false`. -/
def mapLookup : ClientMap → GoString → Option Client
  | [], _ => none
  | (k1, c) :: rest, k => if k1 = k then some c else mapLookup rest k

/-- The map write `m[k] = c`. -/
def mapAssign : ClientMap → GoString → Client → ClientMap
  | [], k, c => [(k, c)]
  | (k1, c1) :: rest, k, c =>
    if k1 = k then (k, c) :: rest else (k1, c1) :: mapAssign rest k c

/-- The builtin `delete(m, k)`. -/
def mapDelete : ClientMap → GoString → ClientMap
  | [], _ => []
  | (k1, c) :: rest, k => if k1 = k then mapDelete rest k else (k1, c) :: mapDelete rest k

/-- The part of the Go struct `Server` the relay works on. `IncomingMessages`
holds the messages sent on the channel and not yet received, oldest first;
`stdout` collects what the server prints. The socket is a parameter of the
functions that use it. -/
structure Server where
  Clients : ClientMap
  IncomingMessages : List Message
  stdout : List GoString
deriving DecidableEq, Repr

/-- The length of `Server.buffer`, from `make([]byte, 1024)`. -/
def bufferSize : Nat := 1024

/-- The outcome of a socket write `WriteToUDP(b, addr)`: `none` is a nil error,
`some e` an error whose text is `e`. The first argument is the number of writes
the running `broadcast` has made before, so that the same write may succeed at
one time and fail at another. -/
abbrev Socket := Nat → GoString → UDPAddr → Option GoString

/-- What a run of `Server.broadcast` leaves behind: the datagrams written, in
order, and the lines printed. -/
structure Trace where
  sent : List (UDPAddr × GoString)
  stdout : List GoString
deriving DecidableEq, Repr

/-- The `range` loop of `Server.broadcast` over the entries left to visit. The
result carries the panic that ended the loop, if any. -/
def broadcastLoop (WriteToUDP : Socket) (message : Message) :
    ClientMap → Trace → Trace × Option Panic
  | [], t => (t, none)
  | (clientID, client) :: rest, t =>
    if clientID = message.UserID then
      broadcastLoop WriteToUDP message rest t
    else
      let outgoingMessage := ParseMessageToString message
      match WriteToUDP t.sent.length outgoingMessage client.Address with
      | none =>
        broadcastLoop WriteToUDP message rest
          { t with sent := t.sent ++ [(client.Address, outgoingMessage)] }
      | some err =>
        ({ t with stdout := t.stdout ++ [lit "Error: " ++ err ++ lit "\n"] },
          some (Panic.explicit err))

/-- The method `Server.broadcast`, run on the directory `clients`. -/
def broadcast (WriteToUDP : Socket) (clients : ClientMap) (message : Message) :
    Trace × Option Panic :=
  broadcastLoop WriteToUDP message clients { sent := [], stdout := [] }

/-- The body of the loop of `Server.listenForMessage` after the decoding: the
sender is registered when its `UserID` has no entry, and the message is sent on
the channel. -/
def listenForMessageBody (s : Server) (addr : UDPAddr) (message : Message) : Server :=
  let clients :=
    match mapLookup s.Clients message.UserID with
    | none => mapAssign s.Clients message.UserID (newClient addr message.Author)
    | some _ => s.Clients
  { s with Clients := clients, IncomingMessages := s.IncomingMessages ++ [message] }

/-- One iteration of the loop of `Server.listenForMessage`, for a read that put
`datagram` (cut to the length of the buffer) into the buffer and returned the
source address `addr` and the error `err`. -/
def listenForMessageIter (s : Server) (datagram : GoString) (addr : UDPAddr)
    (err : Option GoString) : Except Panic Server := do
  let s1 : Server :=
    match err with
    | some _ => { s with stdout := s.stdout ++ [lit "Error reading package"] }
    | none => s
  let message ← ParseStringToMessage (datagram.take bufferSize)
  pure (listenForMessageBody s1 addr message)

/-- The method `Server.ReadMessage`: the receive from the channel, `none` while
the channel has nothing to deliver. -/
def ReadMessage (s : Server) : Option (Message × Server) :=
  match s.IncomingMessages with
  | [] => none
  | message :: rest => some (message, { s with IncomingMessages := rest })

/-- What `model.Update` returns for a `msg.Message`: the server state and the
messages for which a `go m.server.broadcast(message)` was started. -/
structure UpdateResult where
  server : Server
  spawned : List Message
deriving DecidableEq, Repr

/-- The case `msg.Message` of `model.Update`, on the server state. The viewport
fields of the model (`terminal`, `userbox`, `terminalLines`) are display state
and are left out; the directory is only read for them. -/
def Update (s : Server) (message : Message) : UpdateResult :=
  if message.Type_ = Functional then
    if message.Content = lit "connect_me" then
      { server := s, spawned := [] }
    else if message.Content = lit "quit" then
      { server := { s with Clients := mapDelete s.Clients message.UserID }, spawned := [] }
    else
      { server := s, spawned := [] }
  else
    { server := s, spawned := [message] }

/-- One message through the server: the body of the receive loop, the receive
from the channel, then `model.Update`. -/
def handle (s : Server) (addr : UDPAddr) (message : Message) : Option UpdateResult :=
  match ReadMessage (listenForMessageBody s addr message) with
  | none => none
  | some (received, s1) => some (Update s1 received)

/-! ## The decimal form of an integer, as the specification words it -/

/-- The decimal integer form of `i`: a minus sign for a negative number, then
the decimal digits of its magnitude, the most significant first (`0` for zero). -/
def decimalForm (i : Int) : GoString :=
  (if i < 0 then [(45 : Byte)] else []) ++
    (if i = 0 then [(48 : Byte)] else ((Nat.digits 10 i.natAbs).reverse.map digitByte))

/-! ## The value of a type segment, stated on the bytes of the segment -/

/-- Whether a byte is a decimal digit, `'0'` to `'9'`. -/
def isDigit (c : Byte) : Bool := decide (48 ≤ c.val ∧ c.val ≤ 57)

/-- The number a string of decimal digits writes, the most significant first. -/
def decimalValue (s : GoString) : Nat :=
  s.foldl (fun a c => a * 10 + (c.val - 48)) 0

/-- The magnitude `v` with its sign, clamped to the range of a 64-bit `int`. -/
def clampInt (neg : Bool) (v : Nat) : Int :=
  if neg then (if 2 ^ 63 < v then -2 ^ 63 else -(v : Int))
  else (if 2 ^ 63 ≤ v then 2 ^ 63 - 1 else (v : Int))

/-- The value of what is left of a segment once an optional sign is set aside:
0 when nothing is left, or when a byte that is no digit is left and the digits
before the first such byte write less than `2^64`; otherwise the signed number
the leading digits write, clamped to the range of `int`. -/
def bodyValue (neg : Bool) (body : GoString) : Int :=
  if body = [] then 0
  else if body.takeWhile isDigit = body then clampInt neg (decimalValue body)
  else if 2 ^ 64 ≤ decimalValue (body.takeWhile isDigit) then
    clampInt neg (decimalValue (body.takeWhile isDigit))
  else 0

/-- The value of a type segment: one leading `-` or `+` is set aside, and the
rest is read by `bodyValue`. -/
def typeOfSegment (t : GoString) : Int :=
  match t with
  | [] => 0
  | c :: rest =>
    if c = 45 then bodyValue true rest
    else if c = 43 then bodyValue false rest
    else bodyValue false t

/-! ## Lemmas on the string functions -/

theorem Index_of_not_mem (s : GoString) (b : Byte) (h : b ∉ s) : Index s b = none := by
  induction s with
  | nil => rfl
  | cons c cs ih =>
    simp only [List.mem_cons, not_or] at h
    have hc : ¬ c = b := fun e => h.1 e.symm
    simp [Index, hc, ih h.2]

theorem Index_append_sep (a r : GoString) (b : Byte) (h : b ∉ a) :
    Index (a ++ b :: r) b = some a.length := by
  induction a with
  | nil => simp [Index]
  | cons c cs ih =>
    simp only [List.mem_cons, not_or] at h
    have hc : ¬ c = b := fun e => h.1 e.symm
    simp [Index, hc, ih h.2]

theorem Count_of_not_mem (s : GoString) (b : Byte) (h : b ∉ s) : Count s b = 0 := by
  induction s with
  | nil => rfl
  | cons c cs ih =>
    simp only [List.mem_cons, not_or] at h
    have hc : ¬ c = b := fun e => h.1 e.symm
    simp [Count, hc, ih h.2]

theorem Count_append_sep (a r : GoString) (b : Byte) (h : b ∉ a) :
    Count (a ++ b :: r) b = Count r b + 1 := by
  induction a with
  | nil => simp [Count, Nat.add_comm]
  | cons c cs ih =>
    simp only [List.mem_cons, not_or] at h
    have hc : ¬ c = b := fun e => h.1 e.symm
    simp [Count, hc, ih h.2]

theorem Split_of_not_mem (s : GoString) (b : Byte) (h : b ∉ s) : Split s b = [s] := by
  simp [Split, Count_of_not_mem s b h, genSplitLoop]

theorem Split_append_sep (a r : GoString) (b : Byte) (h : b ∉ a) :
    Split (a ++ b :: r) b = a :: Split r b := by
  simp [Split, Count_append_sep a r b h, genSplitLoop, Index_append_sep a r b h]

theorem genSplitLoop_ne_nil (k : Nat) (s : GoString) (b : Byte) : genSplitLoop k s b ≠ [] := by
  cases k with
  | zero => simp [genSplitLoop]
  | succ k =>
    cases h : Index s b <;> simp [genSplitLoop, h]

theorem Split_ne_nil (s : GoString) (b : Byte) : Split s b ≠ [] :=
  genSplitLoop_ne_nil _ s b

theorem mem_or_decompose (s : GoString) (b : Byte) :
    b ∉ s ∨ ∃ a r, s = a ++ b :: r ∧ b ∉ a := by
  induction s with
  | nil => exact Or.inl (by simp)
  | cons c cs ih =>
    by_cases hc : c = b
    · exact Or.inr ⟨[], cs, by simp [hc], by simp⟩
    · have hb : ¬ b = c := fun e => hc e.symm
      rcases ih with h | ⟨a, r, hs, ha⟩
      · exact Or.inl (by simp [hb, h])
      · exact Or.inr ⟨c :: a, r, by simp [hs], by simp [hb, ha]⟩

theorem takeWhile_of_not_mem (s : GoString) (b : Byte) (h : b ∉ s) :
    s.takeWhile (fun x => decide (x ≠ b)) = s := by
  induction s with
  | nil => rfl
  | cons c cs ih =>
    simp only [List.mem_cons, not_or] at h
    have hc : ¬ c = b := fun e => h.1 e.symm
    have := ih h.2
    simp only [ne_eq, decide_not] at this
    simp [List.takeWhile, hc, this]

theorem takeWhile_append_sep (a r : GoString) (b : Byte) (h : b ∉ a) :
    (a ++ b :: r).takeWhile (fun x => decide (x ≠ b)) = a := by
  induction a with
  | nil => simp [List.takeWhile]
  | cons c cs ih =>
    simp only [List.mem_cons, not_or] at h
    have hc : ¬ c = b := fun e => h.1 e.symm
    have := ih h.2
    simp only [ne_eq, decide_not] at this
    simp [List.takeWhile, hc, this]

theorem Split_head (s : GoString) (b : Byte) :
    ∃ rest, Split s b = s.takeWhile (fun x => decide (x ≠ b)) :: rest := by
  rcases mem_or_decompose s b with h | ⟨a, r, hs, ha⟩
  · exact ⟨[], by rw [Split_of_not_mem s b h, takeWhile_of_not_mem s b h]⟩
  · exact ⟨Split r b, by rw [hs, Split_append_sep a r b ha, takeWhile_append_sep a r b ha]⟩

theorem ParseMessageToString_eq (m : Message) :
    ParseMessageToString m
      = m.UserID ++ sep :: (m.Author ++ sep :: (Itoa m.Type_ ++ sep :: m.Content)) := by
  simp [ParseMessageToString, Join]

theorem formatBitsLoop_eq (fuel u : Nat) (acc : GoString) (hu : 0 < u) (hf : u ≤ fuel) :
    formatBitsLoop fuel u acc = (Nat.digits 10 u).reverse.map digitByte ++ acc := by
  induction fuel generalizing u acc with
  | zero => omega
  | succ fuel ih =>
    by_cases h10 : 10 ≤ u
    · have hpos : 0 < u / 10 := Nat.div_pos h10 (by norm_num)
      have hle : u / 10 ≤ fuel := by omega
      have hd : Nat.digits 10 u = (u % 10) :: Nat.digits 10 (u / 10) :=
        Nat.digits_def' (by norm_num) hu
      simp [formatBitsLoop, h10, ih (u / 10) _ hpos hle, hd]
    · have hd : Nat.digits 10 u = [u] := Nat.digits_of_lt 10 u (by omega) (by omega)
      simp [formatBitsLoop, h10, hd]

theorem small_eq (n : Nat) (h : n < 100) :
    small n = if n = 0 then [(48 : Byte)] else (Nat.digits 10 n).reverse.map digitByte := by
  by_cases h0 : n = 0
  · subst h0; decide
  · by_cases h10 : n < 10
    · have hd : Nat.digits 10 n = [n] := Nat.digits_of_lt 10 n h0 h10
      simp [small, h10, h0, hd]
    · have hd : Nat.digits 10 n = (n % 10) :: Nat.digits 10 (n / 10) :=
        Nat.digits_def' (by norm_num) (by omega)
      have hd2 : Nat.digits 10 (n / 10) = [n / 10] :=
        Nat.digits_of_lt 10 (n / 10) (by omega) (by omega)
      simp [small, h10, h0, hd, hd2]

theorem Itoa_eq_decimalForm (i : Int) : Itoa i = decimalForm i := by
  unfold Itoa FormatInt decimalForm
  by_cases hs : 0 ≤ i ∧ i < 100
  · have hn : i.toNat < 100 := by omega
    have habs : i.natAbs = i.toNat := by omega
    have hneg : ¬ i < 0 := by omega
    have hz : (i = 0) ↔ (i.toNat = 0) := by omega
    rw [if_pos hs, small_eq _ hn, if_neg hneg, habs]
    by_cases h0 : i = 0
    · simp [h0]
    · have : ¬ i.toNat = 0 := fun e => h0 (hz.mpr e)
      simp [h0, this]
  · have h0 : i ≠ 0 := by omega
    have hpos : 0 < i.natAbs := by omega
    rw [if_neg hs, if_neg h0]
    unfold formatBits
    simp only [formatBitsLoop_eq _ _ [] hpos (le_refl _), List.append_nil]
    by_cases hneg : i < 0 <;> simp [hneg]

theorem ParseStringToMessage_of_Split (s u a t c : GoString) (rest : List GoString)
    (h : Split s sep = u :: a :: t :: c :: rest) :
    ParseStringToMessage s = Except.ok (newMessage u a c (Atoi t).1) := by
  simp [ParseStringToMessage, h, index, bind, Except.bind, pure, Except.pure]

theorem ParseStringToMessage_encode (m : Message)
    (hT : m.Type_ = Functional ∨ m.Type_ = Content)
    (hU : sep ∉ m.UserID) (hA : sep ∉ m.Author) :
    ParseStringToMessage (ParseMessageToString m)
      = Except.ok (newMessage m.UserID m.Author
          (m.Content.takeWhile (fun x => decide (x ≠ sep))) m.Type_) := by
  obtain ⟨rest, hrest⟩ := Split_head m.Content sep
  have hI : sep ∉ Itoa m.Type_ ∧ (Atoi (Itoa m.Type_)).1 = m.Type_ := by
    rcases hT with h | h <;> rw [h] <;> decide
  have hS : Split (ParseMessageToString m) sep
      = m.UserID :: m.Author :: Itoa m.Type_
          :: m.Content.takeWhile (fun x => decide (x ≠ sep)) :: rest := by
    rw [ParseMessageToString_eq, Split_append_sep _ _ _ hU, Split_append_sep _ _ _ hA,
      Split_append_sep _ _ _ hI.1, hrest]
  rw [ParseStringToMessage_of_Split _ _ _ _ _ _ hS, hI.2]

theorem ParseInt_syntax_value (s : GoString) (h : (ParseInt s).2 = some NumError.ErrSyntax) :
    (ParseInt s).1 = 0 := by
  cases s with
  | nil => rfl
  | cons c rest =>
    simp only [ParseInt] at h ⊢
    generalize ParseUint (if c = 43 ∨ c = 45 then rest else c :: rest) = p at h ⊢
    rcases p with ⟨un, _ | _ | _⟩
    · simp only [] at h
      split_ifs at h <;> simp at h
    · rfl
    · simp only [] at h
      split_ifs at h <;> simp at h

theorem Atoi_syntax_value (s : GoString) (h : (Atoi s).2 = some NumError.ErrSyntax) :
    (Atoi s).1 = 0 := by
  cases s with
  | nil => exact ParseInt_syntax_value _ h
  | cons c rest =>
    simp only [Atoi] at h ⊢
    generalize atoiFastLoop (if c = 45 ∨ c = 43 then rest else c :: rest) 0 = r at h ⊢
    cases r <;> split_ifs at h ⊢ <;>
      first
        | rfl
        | exact ParseInt_syntax_value _ h

/-! ## Lemmas on the directory and on the broadcast loop -/

theorem mapAssign_of_absent (d : ClientMap) (k : GoString) (c : Client)
    (h : mapLookup d k = none) : mapAssign d k c = d ++ [(k, c)] := by
  induction d with
  | nil => rfl
  | cons e rest ih =>
    obtain ⟨k1, c1⟩ := e
    by_cases hk : k1 = k
    · simp [mapLookup, hk] at h
    · simp only [mapLookup, hk, if_false] at h
      simp [mapAssign, hk, ih h]

theorem mapDelete_of_absent (d : ClientMap) (k : GoString) (h : mapLookup d k = none) :
    mapDelete d k = d := by
  induction d with
  | nil => rfl
  | cons e rest ih =>
    obtain ⟨k1, c1⟩ := e
    by_cases hk : k1 = k
    · simp [mapLookup, hk] at h
    · simp only [mapLookup, hk, if_false] at h
      simp [mapDelete, hk, ih h]

theorem mapDelete_append_self (d : ClientMap) (k : GoString) (c : Client) :
    mapDelete (d ++ [(k, c)]) k = mapDelete d k := by
  induction d with
  | nil => simp [mapDelete]
  | cons e rest ih =>
    obtain ⟨k1, c1⟩ := e
    by_cases hk : k1 = k <;> simp [mapDelete, hk, ih]

theorem mapDelete_eq_filter (d : ClientMap) (k : GoString) :
    mapDelete d k = d.filter (fun e => decide (e.1 ≠ k)) := by
  induction d with
  | nil => rfl
  | cons e rest ih =>
    obtain ⟨k1, c1⟩ := e
    by_cases hk : k1 = k
    · simp only [mapDelete, if_pos hk, ih]
      simp [hk]
    · simp only [mapDelete, if_neg hk, ih]
      simp [hk]

theorem mapLookup_mapAssign_self (d : ClientMap) (k : GoString) (c : Client) :
    mapLookup (mapAssign d k c) k = some c := by
  induction d with
  | nil => simp [mapAssign, mapLookup]
  | cons e rest ih =>
    obtain ⟨k1, c1⟩ := e
    by_cases hk : k1 = k
    · simp [mapAssign, mapLookup, hk]
    · simp [mapAssign, mapLookup, hk, ih]

theorem mapLookup_mapAssign_other (d : ClientMap) (k k2 : GoString) (c : Client)
    (h : k2 ≠ k) : mapLookup (mapAssign d k c) k2 = mapLookup d k2 := by
  have h2 : ¬ k = k2 := fun e => h e.symm
  induction d with
  | nil => simp [mapAssign, mapLookup, h2]
  | cons e rest ih =>
    obtain ⟨k1, c1⟩ := e
    by_cases hk : k1 = k
    · subst hk
      simp [mapAssign, mapLookup, h2]
    · by_cases hk2 : k1 = k2
      · subst hk2
        simp [mapAssign, mapLookup, hk]
      · simp [mapAssign, mapLookup, hk, hk2, ih]

theorem mapLookup_mapDelete_self (d : ClientMap) (k : GoString) :
    mapLookup (mapDelete d k) k = none := by
  induction d with
  | nil => rfl
  | cons e rest ih =>
    obtain ⟨k1, c1⟩ := e
    by_cases hk : k1 = k <;> simp [mapDelete, mapLookup, hk, ih]

theorem mapLookup_mapDelete_other (d : ClientMap) (k k2 : GoString) (h : k2 ≠ k) :
    mapLookup (mapDelete d k) k2 = mapLookup d k2 := by
  induction d with
  | nil => rfl
  | cons e rest ih =>
    obtain ⟨k1, c1⟩ := e
    by_cases hk : k1 = k
    · subst hk
      have : ¬ k1 = k2 := fun e => h e.symm
      simp [mapDelete, mapLookup, this, ih]
    · by_cases hk2 : k1 = k2
      · subst hk2
        simp [mapDelete, mapLookup, hk]
      · simp [mapDelete, mapLookup, hk, hk2, ih]

theorem broadcastLoop_all_ok (W : Socket) (message : Message)
    (hW : ∀ i p a, W i p a = none) (d : ClientMap) (t : Trace) :
    broadcastLoop W message d t
      = ({ t with
            sent := t.sent ++
              (d.filter (fun e => decide (e.1 ≠ message.UserID))).map
                (fun e => (e.2.Address, ParseMessageToString message)) }, none) := by
  induction d generalizing t with
  | nil => simp [broadcastLoop]
  | cons e rest ih =>
    obtain ⟨k, c⟩ := e
    by_cases hk : k = message.UserID
    · simp [broadcastLoop, hk, ih]
    · simp [broadcastLoop, hk, hW, ih]

theorem broadcastLoop_first_failure (W : Socket) (message : Message) (err : GoString)
    (d : ClientMap) (t : Trace) (pre post : ClientMap) (e : GoString × Client)
    (hd : d.filter (fun x => decide (x.1 ≠ message.UserID)) = pre ++ e :: post)
    (hpre : ∀ x ∈ List.enumFrom t.sent.length pre,
      W x.1 (ParseMessageToString message) x.2.2.Address = none)
    (he : W (t.sent.length + pre.length) (ParseMessageToString message) e.2.Address = some err) :
    broadcastLoop W message d t
      = ({ sent := t.sent ++ pre.map (fun x => (x.2.Address, ParseMessageToString message)),
           stdout := t.stdout ++ [lit "Error: " ++ err ++ lit "\n"] },
         some (Panic.explicit err)) := by
  induction d generalizing t pre with
  | nil => simp at hd
  | cons x rest ih =>
    obtain ⟨k, c⟩ := x
    by_cases hk : k = message.UserID
    · have hd2 : rest.filter (fun x => decide (x.1 ≠ message.UserID)) = pre ++ e :: post := by
        simpa [hk] using hd
      simp [broadcastLoop, hk, ih t pre hd2 hpre he]
    · have hd2 : (k, c) :: rest.filter (fun x => decide (x.1 ≠ message.UserID))
          = pre ++ e :: post := by
        simpa [hk] using hd
      cases pre with
      | nil =>
        simp only [List.nil_append, List.cons.injEq] at hd2
        have he2 : W t.sent.length (ParseMessageToString message) c.Address = some err := by
          simpa [← hd2.1] using he
        simp [broadcastLoop, hk, he2]
      | cons p pre2 =>
        simp only [List.cons_append, List.cons.injEq] at hd2
        have hp : W t.sent.length (ParseMessageToString message) c.Address = none := by
          have := hpre (t.sent.length, p) (by simp [List.enumFrom])
          simpa [← hd2.1] using this
        have hpre2 : ∀ x ∈ List.enumFrom (t.sent.length + 1) pre2,
            W x.1 (ParseMessageToString message) x.2.2.Address = none := by
          intro x hx
          exact hpre x (by simp [List.enumFrom, hx])
        have he3 : W (t.sent.length + 1 + pre2.length) (ParseMessageToString message)
            e.2.Address = some err := by
          have : t.sent.length + 1 + pre2.length = t.sent.length + (p :: pre2).length := by
            simp; omega
          rw [this]; exact he
        have := ih { t with sent := t.sent ++ [(c.Address, ParseMessageToString message)] } pre2
          hd2.2 (by simpa using hpre2) (by simpa using he3)
        simp [broadcastLoop, hk, hp, this, ← hd2.1]

/-! ## `strconv.Atoi` reads back what `strconv.Itoa` writes -/

theorem digitByte_val (d : Nat) (h : d < 10) : (digitByte d).val = 48 + d := by
  simp [digitByte, Fin.ofNat]
  omega

theorem foldl_digits_ge (ds : List Nat) (acc : Nat) :
    acc ≤ ds.foldl (fun a d => a * 10 + d) acc := by
  induction ds generalizing acc with
  | nil => simp
  | cons d ds ih =>
    simp only [List.foldl_cons]
    have := ih (acc * 10 + d)
    omega

theorem atoiFastLoop_digits (ds : List Nat) (acc : Nat) (hd : ∀ d ∈ ds, d < 10) :
    atoiFastLoop (ds.map digitByte) (acc : Int)
      = some ((ds.foldl (fun a d => a * 10 + d) acc : Nat) : Int) := by
  induction ds generalizing acc with
  | nil => simp [atoiFastLoop]
  | cons d ds ih =>
    have hlt : d < 10 := hd d (by simp)
    have hv := digitByte_val d hlt
    have hmod : ((digitByte d).val + 256 - 48) % 256 = d := by rw [hv]; omega
    have h9 : ¬ 9 < d := by omega
    have := ih (acc * 10 + d) (fun x hx => hd x (by simp [hx]))
    simp only [List.map_cons, atoiFastLoop, List.foldl_cons]
    simp only [hmod, h9, if_false]
    rw [← this]
    push_cast
    rfl

theorem parseUintLoop_digits (ds : List Nat) (acc : Nat) (hd : ∀ d ∈ ds, d < 10)
    (hv : ds.foldl (fun a d => a * 10 + d) acc < 2 ^ 64) :
    parseUintLoop (ds.map digitByte) acc = (ds.foldl (fun a d => a * 10 + d) acc, none) := by
  induction ds generalizing acc with
  | nil => simp [parseUintLoop]
  | cons d ds ih =>
    have hlt : d < 10 := hd d (by simp)
    have hval := digitByte_val d hlt
    simp only [List.foldl_cons] at hv
    have hge := foldl_digits_ge ds (acc * 10 + d)
    have hdig : 48 ≤ (digitByte d).val ∧ (digitByte d).val ≤ 57 := by omega
    have hsub : (digitByte d).val - 48 = d := by omega
    have hcut : ¬ ((2 ^ 64 - 1) / 10 + 1 ≤ acc) := by
      norm_num at hv ⊢
      omega
    have hmax : ¬ (2 ^ 64 - 1 < acc * 10 + d) := by
      norm_num at hv ⊢
      omega
    have := ih (acc * 10 + d) (fun x hx => hd x (by simp [hx])) hv
    simp only [List.map_cons, parseUintLoop, List.foldl_cons]
    simp only [hdig, and_self, if_true, hsub, hcut, hmax, if_false]
    exact this

theorem digitByte_ne_sign (d : Nat) (h : d < 10) :
    digitByte d ≠ 45 ∧ digitByte d ≠ 43 := by
  have hv := digitByte_val d h
  have h45 : (45 : Byte).val = 45 := rfl
  have h43 : (43 : Byte).val = 43 := rfl
  constructor <;> intro e <;> rw [e] at hv <;> omega

theorem Atoi_digits (d0 : Nat) (ds : List Nat) (hd : ∀ d ∈ d0 :: ds, d < 10)
    (hv : (d0 :: ds).foldl (fun a d => a * 10 + d) 0 < 2 ^ 63) :
    Atoi ((d0 :: ds).map digitByte)
      = ((((d0 :: ds).foldl (fun a d => a * 10 + d) 0 : Nat) : Int), none) := by
  have hs := digitByte_ne_sign d0 (hd d0 (by simp))
  have hfast := atoiFastLoop_digits (d0 :: ds) 0 hd
  have hslow := parseUintLoop_digits (d0 :: ds) 0 hd (by norm_num at hv ⊢; omega)
  have hcut : ¬ (2 ^ (intSize - 1) ≤ (d0 :: ds).foldl (fun a d => a * 10 + d) 0) := by
    simp only [intSize]; norm_num at hv ⊢; omega
  simp only [List.map_cons, Nat.cast_zero] at hfast hslow
  generalize List.foldl (fun a d => a * 10 + d) 0 (d0 :: ds) = V at hfast hslow hcut ⊢
  simp only [List.map_cons]
  generalize List.map digitByte ds = L at hfast hslow ⊢
  generalize digitByte d0 = c at hs hfast hslow ⊢
  have hl1 : ¬ (c :: L).length < 1 := by simp
  by_cases hlen : (c :: L).length < 19
  · simp only [Atoi, hlen, if_true, hs.1, hs.2, or_self, if_false, hl1, hfast]
  · simp only [Atoi, hlen, if_false, ParseInt, ParseUint, hs.1, hs.2, or_self, hslow]
    simp [hcut]

theorem Atoi_neg_digits (d0 : Nat) (ds : List Nat) (hd : ∀ d ∈ d0 :: ds, d < 10)
    (hv : (d0 :: ds).foldl (fun a d => a * 10 + d) 0 ≤ 2 ^ 63) :
    Atoi ((45 : Byte) :: (d0 :: ds).map digitByte)
      = (-(((d0 :: ds).foldl (fun a d => a * 10 + d) 0 : Nat) : Int), none) := by
  have hfast := atoiFastLoop_digits (d0 :: ds) 0 hd
  have hslow := parseUintLoop_digits (d0 :: ds) 0 hd (by norm_num at hv ⊢; omega)
  have hcut : ¬ (2 ^ (intSize - 1) < (d0 :: ds).foldl (fun a d => a * 10 + d) 0) := by
    simp only [intSize]; norm_num at hv ⊢; omega
  simp only [List.map_cons, Nat.cast_zero] at hfast hslow
  generalize List.foldl (fun a d => a * 10 + d) 0 (d0 :: ds) = V at hfast hslow hcut ⊢
  simp only [List.map_cons]
  generalize List.map digitByte ds = L at hfast hslow ⊢
  generalize digitByte d0 = c at hfast hslow ⊢
  have hl1 : ¬ (c :: L).length < 1 := by simp
  by_cases hlen : ((45 : Byte) :: c :: L).length < 19
  · simp only [Atoi, hlen, if_true, true_or, or_true, hl1, if_false, hfast]
  · simp only [Atoi, hlen, if_false, ParseInt, ParseUint, true_or, or_true, if_true, hslow]
    simp [hcut]

theorem foldr_digits_eq_ofDigits (L : List Nat) :
    L.foldr (fun d a => a * 10 + d) 0 = Nat.ofDigits 10 L := by
  induction L with
  | nil => simp
  | cons d L ih =>
    simp only [List.foldr_cons, Nat.ofDigits_cons, ih]
    ring

theorem foldl_reverse_digits (u : Nat) :
    (Nat.digits 10 u).reverse.foldl (fun a d => a * 10 + d) 0 = u := by
  rw [List.foldl_reverse, foldr_digits_eq_ofDigits, Nat.ofDigits_digits]

theorem Atoi_Itoa (n : Int) (hlo : -2 ^ 63 ≤ n) (hhi : n < 2 ^ 63) :
    Atoi (Itoa n) = (n, none) := by
  rw [Itoa_eq_decimalForm]
  by_cases h0 : n = 0
  · subst h0; decide
  · have hpos : n.natAbs ≠ 0 := by omega
    have hval := foldl_reverse_digits n.natAbs
    have hlt : ∀ d ∈ (Nat.digits 10 n.natAbs).reverse, d < 10 := by
      intro d hd
      exact Nat.digits_lt_base (by norm_num) (List.mem_reverse.mp hd)
    have hne : (Nat.digits 10 n.natAbs).reverse ≠ [] := by
      simpa using (Nat.digits_ne_nil_iff_ne_zero.mpr hpos)
    obtain ⟨d0, ds, hds⟩ := List.exists_cons_of_ne_nil hne
    rw [hds] at hval hlt
    unfold decimalForm
    rw [if_neg h0, hds]
    by_cases hneg : n < 0
    · rw [if_pos hneg]
      have hb : (d0 :: ds).foldl (fun a d => a * 10 + d) 0 ≤ 2 ^ 63 := by
        rw [hval]; omega
      have := Atoi_neg_digits d0 ds hlt hb
      rw [hval] at this
      simp only [List.singleton_append]
      rw [this]
      congr 1
      omega
    · rw [if_neg hneg]
      have hb : (d0 :: ds).foldl (fun a d => a * 10 + d) 0 < 2 ^ 63 := by
        rw [hval]; omega
      have := Atoi_digits d0 ds hlt hb
      rw [hval] at this
      simp only [List.nil_append]
      rw [this]
      congr 1
      omega

/-! ## The value `strconv.Atoi` returns, for every string -/

theorem foldl_value_ge (s : GoString) (acc : Nat) :
    acc ≤ s.foldl (fun a c => a * 10 + (c.val - 48)) acc := by
  induction s generalizing acc with
  | nil => simp
  | cons c s ih =>
    simp only [List.foldl_cons]
    have := ih (acc * 10 + (c.val - 48))
    omega

theorem foldl_value_lt_pow (s : GoString) (acc : Nat) (hd : ∀ c ∈ s, isDigit c = true) :
    s.foldl (fun a c => a * 10 + (c.val - 48)) acc + 1 ≤ (acc + 1) * 10 ^ s.length := by
  induction s generalizing acc with
  | nil => simp
  | cons c s ih =>
    have hc : isDigit c = true := hd c (by simp)
    simp only [isDigit, decide_eq_true_eq] at hc
    have h1 := ih (acc * 10 + (c.val - 48)) (fun x hx => hd x (by simp [hx]))
    have h2 : acc * 10 + (c.val - 48) + 1 ≤ (acc + 1) * 10 := by omega
    have h3 := Nat.mul_le_mul_right (10 ^ s.length) h2
    simp only [List.foldl_cons, List.length_cons]
    calc List.foldl (fun a c => a * 10 + (c.val - 48)) (acc * 10 + (c.val - 48)) s + 1
        ≤ (acc * 10 + (c.val - 48) + 1) * 10 ^ s.length := h1
      _ ≤ (acc + 1) * 10 * 10 ^ s.length := h3
      _ = (acc + 1) * 10 ^ (s.length + 1) := by ring

theorem parseUintLoop_eq (s : GoString) (acc : Nat) (hacc : acc < 2 ^ 64) :
    parseUintLoop s acc
      = if 2 ^ 64 ≤ (s.takeWhile isDigit).foldl (fun a c => a * 10 + (c.val - 48)) acc then
          (2 ^ 64 - 1, some NumError.ErrRange)
        else if s.takeWhile isDigit = s then
          ((s.takeWhile isDigit).foldl (fun a c => a * 10 + (c.val - 48)) acc, none)
        else (0, some NumError.ErrSyntax) := by
  induction s generalizing acc with
  | nil =>
    have : ¬ 2 ^ 64 ≤ acc := by omega
    simp only [parseUintLoop, List.takeWhile_nil, List.foldl_nil]
    rw [if_neg this, if_pos trivial]
  | cons c s ih =>
    by_cases hc : 48 ≤ c.val ∧ c.val ≤ 57
    · have hdig : isDigit c = true := by simp [isDigit, hc]
      have hge := foldl_value_ge (s.takeWhile isDigit) (acc * 10 + (c.val - 48))
      simp only [parseUintLoop, hc, and_self, if_true, List.takeWhile_cons, hdig,
        List.foldl_cons, List.cons.injEq, true_and]
      by_cases hcut : (2 ^ 64 - 1) / 10 + 1 ≤ acc
      · have : 2 ^ 64 ≤ List.foldl (fun a c => a * 10 + (c.val - 48))
            (acc * 10 + (c.val - 48)) (s.takeWhile isDigit) := by
          norm_num at hcut ⊢; omega
        simp only [hcut, if_true, this]
      · by_cases hmax : 2 ^ 64 - 1 < acc * 10 + (c.val - 48)
        · have : 2 ^ 64 ≤ List.foldl (fun a c => a * 10 + (c.val - 48))
              (acc * 10 + (c.val - 48)) (s.takeWhile isDigit) := by
            norm_num at hmax ⊢; omega
          simp only [hcut, if_false, hmax, if_true, this]
        · have hlt : acc * 10 + (c.val - 48) < 2 ^ 64 := by
            norm_num at hmax ⊢; omega
          simp only [hcut, if_false, hmax]
          exact ih _ hlt
    · have hdig : isDigit c = false := by simp [isDigit, hc]
      have : ¬ 2 ^ 64 ≤ acc := by omega
      have hne : ¬ (([] : GoString) = c :: s) := by simp
      simp only [parseUintLoop, hc, if_false, List.takeWhile_cons, hdig, Bool.false_eq_true,
        List.foldl_nil]
      rw [if_neg this, if_neg hne]

theorem atoiFastLoop_eq (s : GoString) (acc : Nat) :
    atoiFastLoop s (acc : Int)
      = if s.takeWhile isDigit = s then
          some ((s.foldl (fun a c => a * 10 + (c.val - 48)) acc : Nat) : Int)
        else none := by
  induction s generalizing acc with
  | nil => simp [atoiFastLoop]
  | cons c s ih =>
    have hlt := c.isLt
    by_cases hc : 48 ≤ c.val ∧ c.val ≤ 57
    · have hdig : isDigit c = true := by simp [isDigit, hc]
      have hmod : (c.val + 256 - 48) % 256 = c.val - 48 := by omega
      have h9 : ¬ 9 < c.val - 48 := by omega
      have := ih (acc * 10 + (c.val - 48))
      simp only [atoiFastLoop, hmod, h9, if_false, List.takeWhile_cons, hdig, if_true,
        List.cons.injEq, true_and, List.foldl_cons]
      rw [← this]
      push_cast
      rfl
    · have hdig : isDigit c = false := by simp [isDigit, hc]
      have h9 : 9 < (c.val + 256 - 48) % 256 := by omega
      have hne : ¬ (([] : GoString) = c :: s) := by simp
      simp only [atoiFastLoop, h9, if_true, List.takeWhile_cons, hdig, Bool.false_eq_true,
        if_false]
      rw [if_neg hne]

theorem clampInt_of_large (neg : Bool) (v : Nat) (h : 2 ^ 64 ≤ v) :
    clampInt neg v = if neg then -2 ^ 63 else 2 ^ 63 - 1 := by
  have h1 : 2 ^ 63 < v := by norm_num at h ⊢; omega
  have h2 : 2 ^ 63 ≤ v := by omega
  cases neg
  · simp only [clampInt, Bool.false_eq_true, ↓reduceIte, if_pos h2]
  · simp only [clampInt, ↓reduceIte, if_pos h1]

theorem parseInt_finish (neg : Bool) (body : GoString) :
    (match ParseUint body with
      | (_, some NumError.ErrSyntax) => ((0 : Int), some NumError.ErrSyntax)
      | (un, _) =>
        if ¬ neg ∧ 2 ^ (intSize - 1) ≤ un then
          (((2 ^ (intSize - 1) : Nat) : Int) - 1, some NumError.ErrRange)
        else if neg ∧ 2 ^ (intSize - 1) < un then
          (-((2 ^ (intSize - 1) : Nat) : Int), some NumError.ErrRange)
        else (if neg then -(un : Int) else (un : Int), none)).1
      = bodyValue neg body := by
  unfold ParseUint bodyValue
  by_cases hb : body = []
  · simp [hb]
  · rw [if_neg hb, if_neg hb, parseUintLoop_eq body 0 (by norm_num)]
    by_cases h64 : 2 ^ 64 ≤ (body.takeWhile isDigit).foldl (fun a c => a * 10 + (c.val - 48)) 0
    · have hcl := clampInt_of_large neg _ h64
      have hd : decimalValue (body.takeWhile isDigit)
          = (body.takeWhile isDigit).foldl (fun a c => a * 10 + (c.val - 48)) 0 := rfl
      rw [if_pos h64]
      by_cases ht : body.takeWhile isDigit = body
      · rw [if_pos ht]
        rw [← ht, hd, hcl]
        cases neg <;> simp [intSize]
      · rw [if_neg ht, hd, if_pos h64, hcl]
        cases neg <;> simp [intSize]
    · rw [if_neg h64]
      by_cases ht : body.takeWhile isDigit = body
      · rw [if_pos ht, if_pos ht, ht]
        simp only [decimalValue, clampInt, intSize]
        cases neg <;> simp <;> split_ifs <;> simp_all
      · have hd : decimalValue (body.takeWhile isDigit)
            = (body.takeWhile isDigit).foldl (fun a c => a * 10 + (c.val - 48)) 0 := rfl
        rw [if_neg ht, if_neg ht, hd, if_neg h64]

theorem decimalValue_lt (s : GoString) (hd : ∀ c ∈ s, isDigit c = true)
    (hlen : s.length ≤ 18) : decimalValue s < 10 ^ 18 := by
  have h1 := foldl_value_lt_pow s 0 hd
  have h2 : 10 ^ s.length ≤ 10 ^ 18 := Nat.pow_le_pow_right (by norm_num) hlen
  unfold decimalValue
  omega

theorem atoiFast_finish (negP : Prop) [Decidable negP] (body : GoString)
    (hlen : body.length ≤ 18) :
    (if body.length < 1 then ((0 : Int), some NumError.ErrSyntax)
      else
        match atoiFastLoop body 0 with
        | none => (0, some NumError.ErrSyntax)
        | some n => (if negP then -n else n, none)).1
      = bodyValue (decide negP) body := by
  unfold bodyValue
  by_cases hb : body = []
  · simp [hb]
  · have hl : ¬ body.length < 1 := by
      cases body with
      | nil => exact absurd rfl hb
      | cons c r => simp
    have hfast := atoiFastLoop_eq body 0
    simp only [Nat.cast_zero] at hfast
    rw [if_neg hl, if_neg hb, hfast]
    by_cases ht : body.takeWhile isDigit = body
    · have hd : ∀ c ∈ body, isDigit c = true := by
        intro c hc
        rw [← ht] at hc
        exact (List.mem_takeWhile_imp hc)
      have hv := decimalValue_lt body hd hlen
      have hv2 : ¬ 2 ^ 63 < decimalValue body := by norm_num at hv ⊢; omega
      have hv3 : ¬ 2 ^ 63 ≤ decimalValue body := by norm_num at hv ⊢; omega
      rw [if_pos ht, if_pos ht]
      by_cases hn : negP
      · simp only [hn, if_true, decide_True, clampInt, if_neg hv2]
        rfl
      · simp only [hn, if_false, decide_False, clampInt, Bool.false_eq_true, if_neg hv3]
        rfl
    · have hd : ∀ c ∈ body.takeWhile isDigit, isDigit c = true :=
        fun c hc => List.mem_takeWhile_imp hc
      have hle : (body.takeWhile isDigit).length ≤ 18 :=
        le_trans (List.takeWhile_sublist isDigit).length_le hlen
      have hv := decimalValue_lt _ hd hle
      have hv2 : ¬ 2 ^ 64 ≤ decimalValue (body.takeWhile isDigit) := by
        norm_num at hv ⊢; omega
      rw [if_neg ht, if_neg ht, if_neg hv2]

theorem ParseInt_value (t : GoString) : (ParseInt t).1 = typeOfSegment t := by
  cases t with
  | nil => rfl
  | cons c rest =>
    by_cases h45 : c = 45
    · subst h45
      exact parseInt_finish true rest
    · by_cases h43 : c = 43
      · subst h43
        exact parseInt_finish false rest
      · have hdec : decide (c = 45) = false := by simp [h45]
        have hor : ¬ (c = 43 ∨ c = 45) := by simp [h45, h43]
        have := parseInt_finish false (c :: rest)
        simp only [ParseInt, typeOfSegment, if_neg h45, if_neg h43, if_neg hor, hdec]
        exact this

theorem Atoi_value (t : GoString) : (Atoi t).1 = typeOfSegment t := by
  cases t with
  | nil => rfl
  | cons c rest =>
    by_cases hlen : (c :: rest).length < 19
    · have hl1 : rest.length ≤ 18 := by simp at hlen; omega
      have hl2 : (c :: rest).length ≤ 18 := by omega
      by_cases h45 : c = 45
      · have hor : c = 45 ∨ c = 43 := Or.inl h45
        have := atoiFast_finish (c = 45) rest hl1
        simp only [Atoi, if_pos hlen, if_pos hor, typeOfSegment, if_pos h45]
        simpa [h45] using this
      · by_cases h43 : c = 43
        · have hor : c = 45 ∨ c = 43 := Or.inr h43
          have := atoiFast_finish (c = 45) rest hl1
          simp only [Atoi, if_pos hlen, if_pos hor, typeOfSegment, if_neg h45, if_pos h43]
          simpa [h45] using this
        · have hor : ¬ (c = 45 ∨ c = 43) := by simp [h45, h43]
          have := atoiFast_finish (c = 45) (c :: rest) hl2
          simp only [Atoi, if_pos hlen, if_neg hor, typeOfSegment, if_neg h45, if_neg h43]
          simpa [h45] using this
    · have : Atoi (c :: rest) = ParseInt (c :: rest) := by
        simp only [Atoi, if_neg hlen]
      rw [this]
      exact ParseInt_value _

/-! ## The message codec -/

/-- C3: the encoding of a message is its `UserID`, one byte `0x01`, its `Author`,
one byte `0x01`, the decimal integer form of its `Type` (`"0"` for `Functional`,
`"1"` for `Content`), one byte `0x01`, and its `Content`, in that order and with
nothing else. -/
theorem ParseMessageToString_wire_format (m : Message) :
    ParseMessageToString m
        = m.UserID ++ [(1 : Byte)] ++ m.Author ++ [(1 : Byte)] ++ decimalForm m.Type_
            ++ [(1 : Byte)] ++ m.Content
      ∧ decimalForm Functional = lit "0" ∧ decimalForm Content = lit "1" := by
  refine ⟨?_, ?_, ?_⟩
  · rw [ParseMessageToString_eq, Itoa_eq_decimalForm]
    simp [sep]
  · rw [← Itoa_eq_decimalForm]; decide
  · rw [← Itoa_eq_decimalForm]; decide

/-- C1: decoding the encoding of a message whose `Type` is `Functional` or
`Content` and whose `UserID`, `Author` and `Content` hold no separator byte
`0x01` returns the message itself. -/
theorem codec_round_trip (m : Message)
    (hT : m.Type_ = Functional ∨ m.Type_ = Content)
    (hU : (1 : Byte) ∉ m.UserID) (hA : (1 : Byte) ∉ m.Author) (hC : (1 : Byte) ∉ m.Content) :
    ParseStringToMessage (ParseMessageToString m) = Except.ok m := by
  rw [ParseStringToMessage_encode m hT hU hA, takeWhile_of_not_mem m.Content sep hC]
  rfl

/-- Witness of C1: the message `{u1, alice, hi, Content}` is decoded back from its
encoding. -/
theorem codec_round_trip_witness :
    ParseStringToMessage
        (ParseMessageToString
          { UserID := lit "u1", Author := lit "alice", Content := lit "hi", Type_ := Content })
      = Except.ok
          { UserID := lit "u1", Author := lit "alice", Content := lit "hi", Type_ := Content } :=
  codec_round_trip _ (Or.inr rfl) (by decide) (by decide) (by decide)

/-- C10: when only the `Content` of a message may hold the separator byte `0x01`
(the `UserID` and `Author` hold none, the `Type` is `Functional` or `Content`),
decoding its encoding succeeds and returns the same `UserID`, `Author` and
`Type`, with the `Content` cut before its first `0x01` byte (the whole `Content`
when it has none). -/
theorem separator_in_content_truncates (m : Message)
    (hT : m.Type_ = Functional ∨ m.Type_ = Content)
    (hU : (1 : Byte) ∉ m.UserID) (hA : (1 : Byte) ∉ m.Author) :
    ParseStringToMessage (ParseMessageToString m)
      = Except.ok
          { UserID := m.UserID, Author := m.Author,
            Content := m.Content.takeWhile (fun x => decide (x ≠ 1)), Type_ := m.Type_ } :=
  ParseStringToMessage_encode m hT hU hA

/-- Witness of C10: the content `hi 0x01 there 0x01 all` comes back as `hi`. -/
theorem separator_in_content_truncates_witness :
    ParseStringToMessage
        (ParseMessageToString
          { UserID := lit "u1", Author := lit "alice", Content := lit "hi\x01there\x01all",
            Type_ := Content })
      = Except.ok
          { UserID := lit "u1", Author := lit "alice", Content := lit "hi", Type_ := Content } :=
  separator_in_content_truncates
    { UserID := lit "u1", Author := lit "alice", Content := lit "hi\x01there\x01all",
      Type_ := Content }
    (Or.inr rfl) (by decide) (by decide)

/-- C2 (as stated, refuted): the empty string and the record `u1 0x01 alice` split
into fewer than four segments, and decoding them ends in the run-time panic
`index out of range`, not in an error value. -/
theorem short_record_counterexample :
    (Split [] sep).length < 4
      ∧ ParseStringToMessage [] = Except.error (Panic.indexOutOfRange 1 1)
      ∧ (Split (lit "u1\x01alice") sep).length < 4
      ∧ ParseStringToMessage (lit "u1\x01alice")
          = Except.error (Panic.indexOutOfRange 3 2) := by
  decide

/-- C2 (amended): decoding a string that splits on `0x01` into fewer than four
segments returns no message and no error value: the read of a missing segment
panics with `index out of range`, at index 1 when there is one segment and at
index 3 when there are two or three. -/
theorem short_record_panics (s : GoString) (h : (Split s sep).length < 4) :
    ParseStringToMessage s
      = Except.error
          (Panic.indexOutOfRange (if (Split s sep).length = 1 then 1 else 3)
            (Split s sep).length) := by
  have hne := Split_ne_nil s sep
  unfold ParseStringToMessage
  match hS : Split s sep with
  | [] => exact absurd hS hne
  | [_] => rfl
  | [_, _] => rfl
  | [_, _, _] => rfl
  | _ :: _ :: _ :: _ :: _ => rw [hS] at h; simp at h; omega

/-- Witness of C2: the three-segment record `u1 0x01 alice 0x01 0` panics at index 3. -/
theorem short_record_panics_witness :
    ParseStringToMessage (lit "u1\x01alice\x010")
      = Except.error (Panic.indexOutOfRange 3 3) :=
  short_record_panics (lit "u1\x01alice\x010") (by decide)

/-- C8 (as stated, refuted): the record `u1 0x01 alice 0x01 2 0x01 hi` has four
segments, its third segment is neither `"0"` nor `"1"`, and decoding it succeeds
with a message whose `Type` is 2, which is neither `Functional` nor `Content`. -/
theorem unrecognized_type_counterexample :
    Split (lit "u1\x01alice\x012\x01hi") sep = [lit "u1", lit "alice", lit "2", lit "hi"]
      ∧ lit "2" ≠ Itoa Functional ∧ lit "2" ≠ Itoa Content
      ∧ ParseStringToMessage (lit "u1\x01alice\x012\x01hi")
          = Except.ok { UserID := lit "u1", Author := lit "alice", Content := lit "hi", Type_ := 2 }
      ∧ (2 : MessageType) ≠ Functional ∧ (2 : MessageType) ≠ Content := by
  decide

/-- C8 (amended): decoding a record of four or more segments never fails; the
message returned has the first, second and fourth segments as `UserID`, `Author`
and `Content`, and its `Type` is the integer `strconv.Atoi` returns for the third
segment with the error dropped, which may be a value other than `Functional`
and `Content`. With one leading `-` or `+` set aside, that integer is 0
(`Functional`) when nothing is left, or when a byte that is no decimal digit is
left and the digits before the first such byte write less than `2^64`;
otherwise it is the signed number the leading digits write, clamped to the
range of `int`. The decimal form of an `int` gives that `int`. -/
theorem unrecognized_type_falls_through (s : GoString) (h : 4 ≤ (Split s sep).length) :
    ∃ u a t c rest,
      Split s sep = u :: a :: t :: c :: rest
        ∧ ParseStringToMessage s
            = Except.ok { UserID := u, Author := a, Content := c, Type_ := typeOfSegment t }
        ∧ typeOfSegment t = (Atoi t).1
        ∧ ((Atoi t).2 = some NumError.ErrSyntax → typeOfSegment t = Functional)
        ∧ (∀ n : Int, -2 ^ 63 ≤ n → n < 2 ^ 63 → t = Itoa n → typeOfSegment t = n) := by
  match hS : Split s sep with
  | [] => rw [hS] at h; simp at h
  | [_] => rw [hS] at h; simp at h
  | [_, _] => rw [hS] at h; simp at h
  | [_, _, _] => rw [hS] at h; simp at h
  | u :: a :: t :: c :: rest =>
    refine ⟨u, a, t, c, rest, rfl, ?_, (Atoi_value t).symm, ?_, ?_⟩
    · rw [ParseStringToMessage_of_Split s u a t c rest hS, Atoi_value]
      rfl
    · intro he
      rw [← Atoi_value]
      exact Atoi_syntax_value t he
    · intro n hlo hhi ht
      rw [← Atoi_value, ht, Atoi_Itoa n hlo hhi]

/-- Witness of C8: the third segment `x7` gives `Type` 0, and the third segment
`99999999999999999999x`, whose leading digits write more than `2^64`, gives the
largest `int`. -/
theorem unrecognized_type_falls_through_witness :
    ParseStringToMessage (lit "u1\x01alice\x01x7\x01hi\x01more")
        = Except.ok { UserID := lit "u1", Author := lit "alice", Content := lit "hi", Type_ := 0 }
      ∧ ParseStringToMessage (lit "u1\x01alice\x0199999999999999999999x\x01hi")
        = Except.ok
            { UserID := lit "u1", Author := lit "alice", Content := lit "hi",
              Type_ := 9223372036854775807 } := by
  constructor
  · obtain ⟨u, a, t, c, rest, hS, hP, -⟩ :=
      unrecognized_type_falls_through (lit "u1\x01alice\x01x7\x01hi\x01more") (by decide)
    have hX : Split (lit "u1\x01alice\x01x7\x01hi\x01more") sep
        = [lit "u1", lit "alice", lit "x7", lit "hi", lit "more"] := by decide
    rw [hX] at hS
    simp only [List.cons.injEq] at hS
    obtain ⟨hu, ha, ht, hc, -⟩ := hS
    rw [hP, ← hu, ← ha, ← ht, ← hc]
    decide
  · obtain ⟨u, a, t, c, rest, hS, hP, -⟩ :=
      unrecognized_type_falls_through (lit "u1\x01alice\x0199999999999999999999x\x01hi")
        (by decide)
    have hX : Split (lit "u1\x01alice\x0199999999999999999999x\x01hi") sep
        = [lit "u1", lit "alice", lit "99999999999999999999x", lit "hi"] := by decide
    rw [hX] at hS
    simp only [List.cons.injEq] at hS
    obtain ⟨hu, ha, ht, hc, -⟩ := hS
    rw [hP, ← hu, ← ha, ← ht, ← hc]
    decide

/-! ## The server relay -/

/-- C4: when every socket write succeeds, `Server.broadcast` writes the encoding
of the message once to the address of each session of the directory whose key
differs from the message's `UserID`, in the order of the iteration, writes to no
session keyed by that `UserID`, prints nothing and does not panic; and
`model.Update` starts that broadcast for a message that is not `Functional`,
leaving the server state as it is. -/
theorem broadcast_exclusion (W : Socket) (s : Server) (m : Message)
    (hW : ∀ i p a, W i p a = none) :
    broadcast W s.Clients m
        = ({ sent := (s.Clients.filter (fun e => decide (e.1 ≠ m.UserID))).map
                      (fun e => (e.2.Address, ParseMessageToString m)),
             stdout := [] }, none)
      ∧ (m.Type_ ≠ Functional → Update s m = { server := s, spawned := [m] }) := by
  refine ⟨?_, ?_⟩
  · simp [broadcast, broadcastLoop_all_ok W m hW]
  · intro hT
    simp [Update, hT]

/-- Witness of C4: with the sessions `A`, `B`, `C` and a content message from `A`,
the writes go to the addresses of `B` and `C` and to no other. -/
theorem broadcast_exclusion_witness :
    broadcast (fun _ _ _ => none)
        [ (lit "A", { Address := ⟨[10, 0, 0, 1], 5001, []⟩, Author := lit "ann" }),
          (lit "B", { Address := ⟨[10, 0, 0, 2], 5002, []⟩, Author := lit "bob" }),
          (lit "C", { Address := ⟨[10, 0, 0, 3], 5003, []⟩, Author := lit "cy" }) ]
        (NewContentMessage (lit "A") (lit "ann") (lit "hello"))
      = ({ sent :=
            [ (⟨[10, 0, 0, 2], 5002, []⟩, lit "A\x01ann\x011\x01hello"),
              (⟨[10, 0, 0, 3], 5003, []⟩, lit "A\x01ann\x011\x01hello") ],
           stdout := [] }, none) :=
  (broadcast_exclusion (fun _ _ _ => none)
    { Clients :=
        [ (lit "A", { Address := ⟨[10, 0, 0, 1], 5001, []⟩, Author := lit "ann" }),
          (lit "B", { Address := ⟨[10, 0, 0, 2], 5002, []⟩, Author := lit "bob" }),
          (lit "C", { Address := ⟨[10, 0, 0, 3], 5003, []⟩, Author := lit "cy" }) ],
      IncomingMessages := [], stdout := [] }
    (NewContentMessage (lit "A") (lit "ann") (lit "hello")) (fun _ _ _ => rfl)).1

/-- C5: for a `UserID` that has no entry in the directory, handling
`Functional/connect_me` and then `Functional/quit` from it, or `Functional/quit`
alone, leaves the server with the directory it started from, without a panic and
with no broadcast started; and deleting an absent key leaves the directory as it
is. -/
theorem join_leave_sequencing (d : ClientMap) (out : List GoString)
    (u author1 author2 : GoString) (addr1 addr2 : UDPAddr) (h : mapLookup d u = none) :
    ((handle { Clients := d, IncomingMessages := [], stdout := out } addr1
          (NewFunctionalMessage u author1 (lit "connect_me"))).bind
        (fun r => handle r.server addr2 (NewFunctionalMessage u author2 (lit "quit")))
        = some { server := { Clients := d, IncomingMessages := [], stdout := out },
                 spawned := [] })
      ∧ handle { Clients := d, IncomingMessages := [], stdout := out } addr2
          (NewFunctionalMessage u author2 (lit "quit"))
        = some { server := { Clients := d, IncomingMessages := [], stdout := out },
                 spawned := [] }
      ∧ mapDelete d u = d := by
  have hq : lit "quit" ≠ lit "connect_me" := by decide
  have hdel : mapDelete (d ++ [(u, newClient addr1 author1)]) u = d := by
    rw [mapDelete_append_self, mapDelete_of_absent d u h]
  have hdel2 : mapDelete (d ++ [(u, newClient addr2 author2)]) u = d := by
    rw [mapDelete_append_self, mapDelete_of_absent d u h]
  have hl : mapLookup (d ++ [(u, newClient addr1 author1)]) u
      = some (newClient addr1 author1) := by
    rw [← mapAssign_of_absent d u _ h, mapLookup_mapAssign_self]
  refine ⟨?_, ?_, mapDelete_of_absent d u h⟩
  · simp [handle, listenForMessageBody, ReadMessage, Update, NewFunctionalMessage, newMessage,
      h, hq, hl, hdel, mapAssign_of_absent d u _ h, Functional]
  · simp [handle, listenForMessageBody, ReadMessage, Update, NewFunctionalMessage, newMessage,
      h, hq, hdel2, mapAssign_of_absent d u _ h, Functional]

/-- Witness of C5: the empty directory stays empty. -/
theorem join_leave_sequencing_witness :
    ((handle { Clients := [], IncomingMessages := [], stdout := [] } ⟨[10, 0, 0, 1], 5001, []⟩
          (NewFunctionalMessage (lit "u1") (lit "alice") (lit "connect_me"))).bind
        (fun r => handle r.server ⟨[10, 0, 0, 1], 5001, []⟩
          (NewFunctionalMessage (lit "u1") (lit "alice") (lit "quit")))
        = some { server := { Clients := [], IncomingMessages := [], stdout := [] },
                 spawned := [] })
      ∧ handle { Clients := [], IncomingMessages := [], stdout := [] } ⟨[10, 0, 0, 1], 5001, []⟩
          (NewFunctionalMessage (lit "u1") (lit "alice") (lit "quit"))
        = some { server := { Clients := [], IncomingMessages := [], stdout := [] },
                 spawned := [] }
      ∧ mapDelete [] (lit "u1") = [] :=
  join_leave_sequencing [] [] (lit "u1") (lit "alice") (lit "alice")
    ⟨[10, 0, 0, 1], 5001, []⟩ ⟨[10, 0, 0, 1], 5001, []⟩ rfl

/-- C6: the registration of the sender in `Server.listenForMessage` inserts an
entry with the source address and the message's `Author` when the `UserID` has
none, keeps the existing entry and the whole directory as they are when it has
one, and leaves the entry of every other key unchanged. -/
theorem upsert_first_write_wins (s : Server) (addr : UDPAddr) (m : Message) :
    (mapLookup s.Clients m.UserID = none →
        mapLookup (listenForMessageBody s addr m).Clients m.UserID
          = some { Address := addr, Author := m.Author })
      ∧ (∀ c, mapLookup s.Clients m.UserID = some c →
          mapLookup (listenForMessageBody s addr m).Clients m.UserID = some c
            ∧ (listenForMessageBody s addr m).Clients = s.Clients)
      ∧ (∀ k, k ≠ m.UserID →
          mapLookup (listenForMessageBody s addr m).Clients k = mapLookup s.Clients k) := by
  refine ⟨?_, ?_, ?_⟩
  · intro h
    simp [listenForMessageBody, h, mapLookup_mapAssign_self, newClient]
  · intro c h
    simp [listenForMessageBody, h]
  · intro k hk
    cases h : mapLookup s.Clients m.UserID with
    | none => simp [listenForMessageBody, h, mapLookup_mapAssign_other _ _ _ _ hk]
    | some c => simp [listenForMessageBody, h]

/-- Witness of C6: a later message under the key `u1` from another address and
with another author leaves the entry of `u1` as it was. -/
theorem upsert_first_write_wins_witness :
    mapLookup
        (listenForMessageBody
          { Clients := [(lit "u1", { Address := ⟨[10, 0, 0, 1], 5001, []⟩, Author := lit "alice" })],
            IncomingMessages := [], stdout := [] }
          ⟨[10, 0, 0, 9], 5009, []⟩
          (NewContentMessage (lit "u1") (lit "mallory") (lit "hi"))).Clients (lit "u1")
      = some { Address := ⟨[10, 0, 0, 1], 5001, []⟩, Author := lit "alice" } :=
  ((upsert_first_write_wins
      { Clients := [(lit "u1", { Address := ⟨[10, 0, 0, 1], 5001, []⟩, Author := lit "alice" })],
        IncomingMessages := [], stdout := [] }
      ⟨[10, 0, 0, 9], 5009, []⟩
      (NewContentMessage (lit "u1") (lit "mallory") (lit "hi"))).2.1
    { Address := ⟨[10, 0, 0, 1], 5001, []⟩, Author := lit "alice" } (by decide)).1

/-- C7 (as stated, refuted): with the sessions `B` and `C` visited in that order
and a message from `A`, a failing write to the address of `B` is printed and
then ends `broadcast` in a panic; nothing is written to `C`, whose key differs
from the sender's and whose write would have succeeded. -/
theorem fan_out_counterexample :
    broadcast
        (fun _ _ a =>
          if a = ⟨[10, 0, 0, 2], 5002, []⟩ then some (lit "network is unreachable") else none)
        [ (lit "B", { Address := ⟨[10, 0, 0, 2], 5002, []⟩, Author := lit "bob" }),
          (lit "C", { Address := ⟨[10, 0, 0, 3], 5003, []⟩, Author := lit "cy" }) ]
        (NewContentMessage (lit "A") (lit "ann") (lit "hello"))
      = ({ sent := [], stdout := [lit "Error: network is unreachable\n"] },
         some (Panic.explicit (lit "network is unreachable")))
      ∧ lit "C" ≠ lit "A" := by
  decide

/-- C7 (amended): when a socket write fails during `Server.broadcast`, the
failure is printed and `broadcast` then panics with that error: the sessions
that differ from the sender and come before the failing one in the iteration
have had the encoded message written to their addresses, and nothing is written
to the sessions that come after it. -/
theorem broadcast_stops_at_first_failure (W : Socket) (d : ClientMap) (m : Message)
    (pre post : ClientMap) (e : GoString × Client) (err : GoString)
    (hd : d.filter (fun x => decide (x.1 ≠ m.UserID)) = pre ++ e :: post)
    (hpre : ∀ i x, pre[i]? = some x → W i (ParseMessageToString m) x.2.Address = none)
    (he : W pre.length (ParseMessageToString m) e.2.Address = some err) :
    broadcast W d m
      = ({ sent := pre.map (fun x => (x.2.Address, ParseMessageToString m)),
           stdout := [lit "Error: " ++ err ++ lit "\n"] },
         some (Panic.explicit err)) := by
  have h := broadcastLoop_first_failure W m err d { sent := [], stdout := [] } pre post e hd
    (by
      intro x hx
      exact hpre x.1 x.2 (List.mem_enum_iff_getElem?.mp hx))
    (by simpa using he)
  simpa [broadcast] using h

/-- Witness of C7: with the sessions `A`, `B`, `C`, `D` visited in that order, a
message from `A` and a failing write to `C`, only `B` is written to. -/
theorem broadcast_stops_at_first_failure_witness :
    broadcast
        (fun _ _ a =>
          if a = ⟨[10, 0, 0, 3], 5003, []⟩ then some (lit "network is unreachable") else none)
        [ (lit "A", { Address := ⟨[10, 0, 0, 1], 5001, []⟩, Author := lit "ann" }),
          (lit "B", { Address := ⟨[10, 0, 0, 2], 5002, []⟩, Author := lit "bob" }),
          (lit "C", { Address := ⟨[10, 0, 0, 3], 5003, []⟩, Author := lit "cy" }),
          (lit "D", { Address := ⟨[10, 0, 0, 4], 5004, []⟩, Author := lit "dee" }) ]
        (NewContentMessage (lit "A") (lit "ann") (lit "hello"))
      = ({ sent := [(⟨[10, 0, 0, 2], 5002, []⟩, lit "A\x01ann\x011\x01hello")],
           stdout := [lit "Error: network is unreachable\n"] },
         some (Panic.explicit (lit "network is unreachable"))) :=
  broadcast_stops_at_first_failure
    (fun _ _ a =>
      if a = ⟨[10, 0, 0, 3], 5003, []⟩ then some (lit "network is unreachable") else none)
    [ (lit "A", { Address := ⟨[10, 0, 0, 1], 5001, []⟩, Author := lit "ann" }),
      (lit "B", { Address := ⟨[10, 0, 0, 2], 5002, []⟩, Author := lit "bob" }),
      (lit "C", { Address := ⟨[10, 0, 0, 3], 5003, []⟩, Author := lit "cy" }),
      (lit "D", { Address := ⟨[10, 0, 0, 4], 5004, []⟩, Author := lit "dee" }) ]
    (NewContentMessage (lit "A") (lit "ann") (lit "hello"))
    [(lit "B", { Address := ⟨[10, 0, 0, 2], 5002, []⟩, Author := lit "bob" })]
    [(lit "D", { Address := ⟨[10, 0, 0, 4], 5004, []⟩, Author := lit "dee" })]
    (lit "C", { Address := ⟨[10, 0, 0, 3], 5003, []⟩, Author := lit "cy" })
    (lit "network is unreachable")
    (by decide)
    (by
      intro i x hx
      cases i with
      | zero =>
        simp only [List.getElem?_cons_zero, Option.some.injEq] at hx
        subst hx
        decide
      | succ j => simp at hx)
    (by decide)

/-- C9 (as stated, refuted): with an empty directory, one iteration of the
receive loop on the datagram `u1 0x01 alice 0x01 0 0x01 connect_me` leaves a
directory with an entry for `u1`: the receive loop writes the directory. -/
theorem ingress_counterexample :
    listenForMessageIter { Clients := [], IncomingMessages := [], stdout := [] }
        (lit "u1\x01alice\x010\x01connect_me") ⟨[10, 0, 0, 1], 5001, []⟩ none
      = Except.ok
          { Clients :=
              [(lit "u1", { Address := ⟨[10, 0, 0, 1], 5001, []⟩, Author := lit "alice" })],
            IncomingMessages :=
              [NewFunctionalMessage (lit "u1") (lit "alice") (lit "connect_me")],
            stdout := [] }
      ∧ [(lit "u1", ({ Address := ⟨[10, 0, 0, 1], 5001, []⟩, Author := lit "alice" } : Client))]
          ≠ [] := by
  decide

/-- C9 (amended): one iteration of the receive loop on a datagram that decodes
hands the decoded message to the `IncomingMessages` queue and changes the
directory in one way only: when the message's `UserID` has no entry it adds one,
with the source address and the message's `Author`, and otherwise leaves the
directory as it was. The consume loop (`model.Update`) adds no entry: it leaves
the directory as it is for every message but `Functional/quit`, and for that one
it removes the entry keyed by the message's `UserID` and nothing else. -/
theorem ingress_registers_and_enqueues (s : Server) (datagram : GoString) (addr : UDPAddr)
    (err : Option GoString) (msg : Message)
    (h : ParseStringToMessage (datagram.take bufferSize) = Except.ok msg) :
    (∃ s1, listenForMessageIter s datagram addr err = Except.ok s1
        ∧ s1.Clients
            = (if mapLookup s.Clients msg.UserID = none
                then s.Clients ++ [(msg.UserID, { Address := addr, Author := msg.Author })]
                else s.Clients)
        ∧ s1.IncomingMessages = s.IncomingMessages ++ [msg])
      ∧ (∀ k c, mapLookup (Update s msg).server.Clients k = some c →
          mapLookup s.Clients k = some c)
      ∧ (Update s msg).server.Clients
          = (if msg.Type_ = Functional ∧ msg.Content = lit "quit"
              then s.Clients.filter (fun e => decide (e.1 ≠ msg.UserID))
              else s.Clients) := by
  refine ⟨?_, ?_, ?_⟩
  · refine ⟨_, by simp only [listenForMessageIter, h]; rfl, ?_, ?_⟩
    · cases hl : mapLookup s.Clients msg.UserID with
      | none =>
        cases err <;>
          simp [listenForMessageBody, hl, mapAssign_of_absent _ _ _ hl, newClient]
      | some c => cases err <;> simp [listenForMessageBody, hl]
    · cases err <;> simp [listenForMessageBody]
  · intro k c hk
    unfold Update at hk
    split_ifs at hk with h1 h2 h3
    · exact hk
    · by_cases hku : k = msg.UserID
      · subst hku
        simp [mapLookup_mapDelete_self] at hk
      · simpa [mapLookup_mapDelete_other _ _ _ hku] using hk
    · exact hk
    · exact hk
  · have hq : lit "connect_me" ≠ lit "quit" := by decide
    unfold Update
    by_cases h1 : msg.Type_ = Functional
    · by_cases h2 : msg.Content = lit "connect_me"
      · have h3 : ¬ (msg.Type_ = Functional ∧ msg.Content = lit "quit") :=
          fun e => hq (h2.symm.trans e.2)
        rw [if_neg h3]
        simp only [if_pos h1, if_pos h2]
      · by_cases h3 : msg.Content = lit "quit"
        · rw [if_pos (And.intro h1 h3)]
          simp only [if_pos h1, if_neg h2, if_pos h3, mapDelete_eq_filter]
        · have h4 : ¬ (msg.Type_ = Functional ∧ msg.Content = lit "quit") := fun e => h3 e.2
          rw [if_neg h4]
          simp only [if_pos h1, if_neg h2, if_neg h3]
    · have h4 : ¬ (msg.Type_ = Functional ∧ msg.Content = lit "quit") := fun e => h1 e.1
      rw [if_neg h4]
      simp only [if_neg h1]

/-- Witness of C9: with the sessions `u1` and `u2`, a `Functional/quit` datagram
from `u1` leaves the directory as it is in the receive loop, queues the decoded
message, and `model.Update` on that message leaves the session `u2` only. -/
theorem ingress_registers_and_enqueues_witness :
    (∃ s1,
        listenForMessageIter
            { Clients :=
                [ (lit "u1", { Address := ⟨[10, 0, 0, 1], 5001, []⟩, Author := lit "alice" }),
                  (lit "u2", { Address := ⟨[10, 0, 0, 2], 5002, []⟩, Author := lit "bob" }) ],
              IncomingMessages := [], stdout := [] }
            (lit "u1\x01alice\x010\x01quit") ⟨[10, 0, 0, 1], 5001, []⟩ none
          = Except.ok s1
        ∧ s1.Clients
            = [ (lit "u1", { Address := ⟨[10, 0, 0, 1], 5001, []⟩, Author := lit "alice" }),
                (lit "u2", { Address := ⟨[10, 0, 0, 2], 5002, []⟩, Author := lit "bob" }) ]
        ∧ s1.IncomingMessages = [NewFunctionalMessage (lit "u1") (lit "alice") (lit "quit")])
      ∧ (Update
            { Clients :=
                [ (lit "u1", { Address := ⟨[10, 0, 0, 1], 5001, []⟩, Author := lit "alice" }),
                  (lit "u2", { Address := ⟨[10, 0, 0, 2], 5002, []⟩, Author := lit "bob" }) ],
              IncomingMessages := [], stdout := [] }
            (NewFunctionalMessage (lit "u1") (lit "alice") (lit "quit"))).server.Clients
          = [(lit "u2", { Address := ⟨[10, 0, 0, 2], 5002, []⟩, Author := lit "bob" })] :=
  ⟨(ingress_registers_and_enqueues
      { Clients :=
          [ (lit "u1", { Address := ⟨[10, 0, 0, 1], 5001, []⟩, Author := lit "alice" }),
            (lit "u2", { Address := ⟨[10, 0, 0, 2], 5002, []⟩, Author := lit "bob" }) ],
        IncomingMessages := [], stdout := [] }
      (lit "u1\x01alice\x010\x01quit") ⟨[10, 0, 0, 1], 5001, []⟩ none
      (NewFunctionalMessage (lit "u1") (lit "alice") (lit "quit")) (by decide)).1,
   (ingress_registers_and_enqueues
      { Clients :=
          [ (lit "u1", { Address := ⟨[10, 0, 0, 1], 5001, []⟩, Author := lit "alice" }),
            (lit "u2", { Address := ⟨[10, 0, 0, 2], 5002, []⟩, Author := lit "bob" }) ],
        IncomingMessages := [], stdout := [] }
      (lit "u1\x01alice\x010\x01quit") ⟨[10, 0, 0, 1], 5001, []⟩ none
      (NewFunctionalMessage (lit "u1") (lit "alice") (lit "quit")) (by decide)).2.2⟩

end GoChat
